import Mathlib

/-!
Shallow embedding of `gluoncv/auto/estimators/center_net/center_net.py`
(class `CenterNetEstimator`): the training-loop orchestration (`_fit`,
`_resume_fit`, `_train_loop`), the evaluation clipping step (`_evaluate`),
the predict adapter (`_predict`) and the trainer builder (`_init_trainer`).

Numeric scalars that are Python floats (scores, learning rates, elapsed
times, box coordinates) are modelled as rationals `ℚ`; the claims under
study are about control flow and exact comparisons, not rounding.
External collaborators (the network forward pass, the data loaders, the
mAP metric, wall-clock time) are abstracted as oracle functions supplied
as parameters, exactly where the Python code calls out to them.
-/

/-- An element of a Python set literal: a string or a float. -/
inductive PyElem where
  | str (s : String) : PyElem
  | num (q : ℚ) : PyElem
  deriving DecidableEq, Repr

/-- A Python value as returned by the training entry points.  The no-op
early-return path of `_fit` / `_resume_fit` executes `{'time', t}`, which
in Python is a *set literal* with two elements (the string `'time'` and
the float `t`), while the full path of `_train_loop` returns a dict
literal mapping string keys to floats; the embedding keeps the two shapes
distinct. -/
inductive PyObj where
  | set (elems : List PyElem) : PyObj
  | dict (entries : List (String × ℚ)) : PyObj
  deriving DecidableEq, Repr

/-- A learning-rate schedule mode string (`mode`/`lr_mode`): linear
ramp, step decay, or polynomial decay. -/
inductive PhaseMode where
  | linear : PhaseMode
  | step : PhaseMode
  | poly : PhaseMode
  deriving DecidableEq, Repr

/-- The subset of `self._cfg.train.*` read by the embedded methods. -/
structure TrainCfgSec where
  start_epoch : ℕ
  epochs : ℕ
  batch_size : ℕ
  lr : ℚ
  wd : ℚ
  lr_decay : ℚ
  lr_decay_epoch : List ℕ
  lr_mode : PhaseMode
  warmup_epochs : ℕ
  deriving DecidableEq, Repr

/-- The subset of `self._cfg.valid.*` read by the embedded methods. -/
structure ValidCfgSec where
  interval : ℕ
  deriving DecidableEq, Repr

/-- The subset of `self._cfg.center_net.*` read by the embedded methods.
`data_shape` is `(width, height)`, unpacked as
`width, height = self._cfg.center_net.data_shape`. -/
structure CenterNetSec where
  data_shape : ℕ × ℕ
  deriving DecidableEq, Repr

/-- The configuration slice the estimator reads. -/
structure Cfg where
  train : TrainCfgSec
  valid : ValidCfgSec
  center_net : CenterNetSec
  deriving DecidableEq, Repr

/-- Mutable estimator state (`self._best_map`, `self.epoch`,
`self._time_elapsed`, `self.net`, `self.classes`, `self.last_train`),
together with ghost logs recording the observable actions of the run:
`executed` collects every epoch index the batch loop ran, `validated`
every epoch after which `_evaluate` was invoked on the validation set,
and `saved` every `(epoch, mAP)` pair at which a checkpoint was written.
The network is an abstract type `Net`. -/
structure EstState (Net : Type) where
  best_map : ℚ
  epoch : ℕ
  time_elapsed : ℚ
  net : Net
  classes : List String
  last_train : Option ℕ
  executed : List ℕ
  validated : List ℕ
  saved : List (ℕ × ℚ)
  deriving DecidableEq, Repr

/-- The external collaborators the training loop calls out to:
`step e` is the cumulative effect on the network of one epoch of forward
passes, backward passes and optimizer steps; `vmap e net` is the final
entry `mean_ap[-1]` returned by `_evaluate` on the validation set after
epoch `e`; `tmap net` is the same on the training set after the loop;
`dt e` is the wall-clock time attributed to epoch `e`. -/
structure Oracles (Net : Type) where
  step : ℕ → Net → Net
  vmap : ℕ → Net → ℚ
  tmap : Net → ℚ
  dt : ℕ → ℚ

variable {Net : Type}

/-- One iteration of the `for self.epoch in range(...)` loop body of
`_train_loop`: run the batch loop (network update), then, when
`epoch % valid.interval == 0 or epoch == train.epochs - 1`, evaluate and
checkpoint if `current_map > self._best_map`; finally accumulate the
elapsed time. -/
def epochStep (cfg : Cfg) (orc : Oracles Net) (e : ℕ) (s : EstState Net) :
    EstState Net :=
  let s1 : EstState Net :=
    { s with epoch := e, net := orc.step e s.net, executed := s.executed ++ [e] }
  let s2 : EstState Net :=
    if e % cfg.valid.interval = 0 ∨ e = cfg.train.epochs - 1 then
      let current_map := orc.vmap e s1.net
      let s1v : EstState Net := { s1 with validated := s1.validated ++ [e] }
      if s1v.best_map < current_map then
        { s1v with saved := s1v.saved ++ [(e, current_map)],
                   best_map := current_map }
      else s1v
    else s1
  { s2 with time_elapsed := s2.time_elapsed + orc.dt e }

/-- `_train_loop`: iterate `epochStep` over
`range(max(self._cfg.train.start_epoch, self.epoch), self._cfg.train.epochs)`,
then evaluate once on the training set and return
`{'train_map': ..., 'valid_map': ..., 'time': ...}`. -/
def train_loop (cfg : Cfg) (orc : Oracles Net) (s : EstState Net) :
    EstState Net × PyObj :=
  let first := max cfg.train.start_epoch s.epoch
  let sF := (List.range' first (cfg.train.epochs - first)).foldl
    (fun st e => epochStep cfg orc e st) s
  (sF, PyObj.dict [("train_map", orc.tmap sF.net),
                   ("valid_map", sF.best_map),
                   ("time", sF.time_elapsed)])

/-- `_resume_fit`: early-return the set literal `{'time', self._time_elapsed}`
when `max(start_epoch, self.epoch) >= epochs`; raise when the classes are
unknown; otherwise build the loaders (external) and run `_train_loop`. -/
def resume_fit (cfg : Cfg) (orc : Oracles Net) (s : EstState Net) :
    Except String (EstState Net × PyObj) :=
  if cfg.train.epochs ≤ max cfg.train.start_epoch s.epoch then
    .ok (s, PyObj.set [PyElem.str "time", PyElem.num s.time_elapsed])
  else if s.classes = [] then
    .error "Unable to determine classes of dataset"
  else
    .ok (train_loop cfg orc s)

/-- The first three statements of `_fit`:
`self._best_map = 0; self.epoch = 0; self._time_elapsed = 0`. -/
def resetState (s : EstState Net) : EstState Net :=
  { s with best_map := 0, epoch := 0, time_elapsed := 0 }

/-- `_fit`: reset `self._best_map`, `self.epoch` and `self._time_elapsed`
to zero, early-return the set literal `{'time', self._time_elapsed}` when
`max(start_epoch, self.epoch) >= epochs`, otherwise record the training-set
size in `self.last_train`, initialize the trainer and delegate to
`_resume_fit`. -/
def fit (cfg : Cfg) (orc : Oracles Net) (train_size : ℕ) (s : EstState Net) :
    Except String (EstState Net × PyObj) :=
  let s0 : EstState Net := resetState s
  if cfg.train.epochs ≤ max cfg.train.start_epoch s0.epoch then
    .ok (s0, PyObj.set [PyElem.str "time", PyElem.num s0.time_elapsed])
  else
    let s1 : EstState Net := { s0 with last_train := some train_size }
    resume_fit cfg orc s1

/-- Project the state out of an entry point's result, with a default for
the error case. -/
def stateOf (r : Except String (EstState Net × PyObj)) (d : EstState Net) :
    EstState Net :=
  match r with
  | .ok (s, _) => s
  | .error _ => d

lemma stateOf_ok (p : EstState Net × PyObj) (d : EstState Net) :
    stateOf (.ok p) d = p.1 := rfl

/-- The condition guarding validation after epoch `e` in `_train_loop`. -/
def validCond (cfg : Cfg) (e : ℕ) : Prop :=
  e % cfg.valid.interval = 0 ∨ e = cfg.train.epochs - 1

instance (cfg : Cfg) (e : ℕ) : Decidable (validCond cfg e) := by
  unfold validCond; infer_instance

lemma epochStep_executed (cfg : Cfg) (orc : Oracles Net) (e : ℕ)
    (s : EstState Net) :
    (epochStep cfg orc e s).executed = s.executed ++ [e] := by
  unfold epochStep
  dsimp only
  split <;> [skip; rfl]
  split <;> rfl

lemma epochStep_validated (cfg : Cfg) (orc : Oracles Net) (e : ℕ)
    (s : EstState Net) :
    (epochStep cfg orc e s).validated =
      s.validated ++ (if validCond cfg e then [e] else []) := by
  unfold epochStep validCond
  dsimp only
  split
  · split <;> rfl
  · simp

lemma epochStep_net (cfg : Cfg) (orc : Oracles Net) (e : ℕ) (s : EstState Net) :
    (epochStep cfg orc e s).net = orc.step e s.net := by
  unfold epochStep
  dsimp only
  split <;> [skip; rfl]
  split <;> rfl

lemma epochStep_epoch (cfg : Cfg) (orc : Oracles Net) (e : ℕ) (s : EstState Net) :
    (epochStep cfg orc e s).epoch = e := by
  unfold epochStep
  dsimp only
  split <;> [skip; rfl]
  split <;> rfl

/-- Characterization of the checkpoint write performed by one loop
iteration: exactly under `validCond` with a strictly larger mAP is the
checkpoint log extended and the running best replaced. -/
lemma epochStep_saved_best (cfg : Cfg) (orc : Oracles Net) (e : ℕ)
    (s : EstState Net) :
    (if validCond cfg e ∧ s.best_map < orc.vmap e (orc.step e s.net) then
      (epochStep cfg orc e s).saved = s.saved ++ [(e, orc.vmap e (orc.step e s.net))] ∧
        (epochStep cfg orc e s).best_map = orc.vmap e (orc.step e s.net)
    else
      (epochStep cfg orc e s).saved = s.saved ∧
        (epochStep cfg orc e s).best_map = s.best_map) := by
  unfold epochStep validCond
  dsimp only
  by_cases h : e % cfg.valid.interval = 0 ∨ e = cfg.train.epochs - 1
  · rw [if_pos h]
    by_cases h2 : s.best_map < orc.vmap e (orc.step e s.net)
    · rw [if_pos h2, if_pos ⟨h, h2⟩]
      exact ⟨rfl, rfl⟩
    · rw [if_neg h2, if_neg (by tauto)]
      exact ⟨rfl, rfl⟩
  · rw [if_neg h, if_neg (by tauto)]
    exact ⟨rfl, rfl⟩

lemma epochStep_best_mono (cfg : Cfg) (orc : Oracles Net) (e : ℕ)
    (s : EstState Net) :
    s.best_map ≤ (epochStep cfg orc e s).best_map := by
  have h := epochStep_saved_best cfg orc e s
  split at h
  · rename_i hc
    rw [h.2]
    exact le_of_lt hc.2
  · rw [h.2]

/-- The epoch-loop iteration as a fold step. -/
def loopFold (cfg : Cfg) (orc : Oracles Net) (l : List ℕ) (s : EstState Net) :
    EstState Net :=
  l.foldl (fun st e => epochStep cfg orc e st) s

lemma train_loop_fst (cfg : Cfg) (orc : Oracles Net) (s : EstState Net) :
    (train_loop cfg orc s).1 =
      loopFold cfg orc
        (List.range' (max cfg.train.start_epoch s.epoch)
          (cfg.train.epochs - max cfg.train.start_epoch s.epoch)) s := by
  rfl

lemma loopFold_executed (cfg : Cfg) (orc : Oracles Net) (l : List ℕ)
    (s : EstState Net) :
    (loopFold cfg orc l s).executed = s.executed ++ l := by
  induction l generalizing s with
  | nil => simp [loopFold]
  | cons e t ih =>
    simp only [loopFold, List.foldl_cons] at *
    rw [ih, epochStep_executed]
    simp

lemma loopFold_validated (cfg : Cfg) (orc : Oracles Net) (l : List ℕ)
    (s : EstState Net) :
    (loopFold cfg orc l s).validated =
      s.validated ++ l.filter (fun e => decide (validCond cfg e)) := by
  induction l generalizing s with
  | nil => simp [loopFold]
  | cons e t ih =>
    simp only [loopFold, List.foldl_cons] at *
    rw [ih, epochStep_validated]
    by_cases h : validCond cfg e
    · simp [h]
    · simp [h]

lemma loopFold_best_mono (cfg : Cfg) (orc : Oracles Net) (l : List ℕ)
    (s : EstState Net) :
    s.best_map ≤ (loopFold cfg orc l s).best_map := by
  induction l generalizing s with
  | nil => simp [loopFold]
  | cons e t ih =>
    simp only [loopFold, List.foldl_cons] at *
    exact le_trans (epochStep_best_mono cfg orc e s) (ih _)

lemma chain_lt_concat {a b : ℚ} {l : List ℚ} (h : List.Chain (· < ·) a l)
    (hb : l.getLastD a < b) : List.Chain (· < ·) a (l ++ [b]) := by
  induction l generalizing a with
  | nil =>
    simp only [List.getLastD_nil] at hb
    simpa using hb
  | cons c t ih =>
    rcases (List.chain_cons.mp h) with ⟨hac, hct⟩
    simp only [List.getLastD_cons] at hb
    exact List.chain_cons.mpr ⟨hac, ih hct hb⟩

/-- The checkpoint log written by the epoch loop, read as mAP values
prefixed by the best score on entry, is a strictly increasing chain, and
the final best score is the last value of that chain. -/
lemma loopFold_saved_chain (cfg : Cfg) (orc : Oracles Net) (l : List ℕ)
    (s : EstState Net) (hs : s.saved = []) :
    List.Chain (· < ·) s.best_map ((loopFold cfg orc l s).saved.map Prod.snd) ∧
      (loopFold cfg orc l s).best_map =
        ((loopFold cfg orc l s).saved.map Prod.snd).getLastD s.best_map := by
  suffices H : ∀ (l : List ℕ) (t : EstState Net),
      List.Chain (· < ·) s.best_map (t.saved.map Prod.snd) →
      t.best_map = (t.saved.map Prod.snd).getLastD s.best_map →
      List.Chain (· < ·) s.best_map ((loopFold cfg orc l t).saved.map Prod.snd) ∧
        (loopFold cfg orc l t).best_map =
          ((loopFold cfg orc l t).saved.map Prod.snd).getLastD s.best_map by
    apply H
    · rw [hs]; exact List.Chain.nil
    · rw [hs]; simp
  intro l
  induction l with
  | nil => intro t h1 h2; exact ⟨h1, h2⟩
  | cons e t ih =>
    intro u h1 h2
    simp only [loopFold, List.foldl_cons] at *
    have hstep := epochStep_saved_best cfg orc e u
    split at hstep
    · rename_i hc
      apply ih
      · rw [hstep.1]
        simp only [List.map_append, List.map_cons, List.map_nil]
        refine chain_lt_concat h1 ?_
        rw [← h2]
        exact hc.2
      · rw [hstep.1, hstep.2]
        simp only [List.map_append, List.map_cons, List.map_nil]
        rw [List.getLastD_concat]
    · apply ih
      · rw [hstep.1]; exact h1
      · rw [hstep.1, hstep.2]; exact h2

lemma resume_fit_run (cfg : Cfg) (orc : Oracles Net) (s : EstState Net)
    (hcls : s.classes ≠ [])
    (hrun : max cfg.train.start_epoch s.epoch < cfg.train.epochs) :
    resume_fit cfg orc s = .ok (train_loop cfg orc s) := by
  unfold resume_fit
  rw [if_neg (by omega), if_neg hcls]

lemma resetState_epoch (s : EstState Net) : (resetState s).epoch = 0 := rfl

lemma resetState_classes (s : EstState Net) :
    (resetState s).classes = s.classes := rfl

lemma fit_run (cfg : Cfg) (orc : Oracles Net) (ts : ℕ) (s : EstState Net)
    (hcls : s.classes ≠ [])
    (hrun : cfg.train.start_epoch < cfg.train.epochs) :
    fit cfg orc ts s =
      .ok (train_loop cfg orc { resetState s with last_train := some ts }) := by
  unfold fit
  dsimp only
  rw [if_neg (by rw [resetState_epoch]; omega)]
  exact resume_fit_run cfg orc _ hcls (by rw [resetState_epoch] at *; simpa)

/-- Does a `PyObj` have the dict shape `{time: float}`? -/
def isTimeDict : PyObj → Bool
  | PyObj.dict entries => entries.map Prod.fst = ["time"]
  | PyObj.set _ => false

/-- Project the returned Python value out of an entry point's result. -/
def pyOf (r : Except String (EstState Net × PyObj)) (d : PyObj) : PyObj :=
  match r with
  | .ok (_, p) => p
  | .error _ => d

/-- A configuration whose run is already complete:
`start_epoch = 5 ≥ epochs = 3`. -/
def cfgDone : Cfg :=
  { train := { start_epoch := 5, epochs := 3, batch_size := 16, lr := 1/10,
               wd := 1/10000, lr_decay := 1/10, lr_decay_epoch := [1, 2], lr_mode := PhaseMode.step,
               warmup_epochs := 0 },
    valid := { interval := 1 },
    center_net := { data_shape := (512, 512) } }

/-- A configuration resuming mid-run: `start_epoch = 3 < epochs = 5`. -/
def cfgMid : Cfg :=
  { train := { start_epoch := 3, epochs := 5, batch_size := 16, lr := 1/10,
               wd := 1/10000, lr_decay := 1/10, lr_decay_epoch := [4], lr_mode := PhaseMode.step,
               warmup_epochs := 0 },
    valid := { interval := 1 },
    center_net := { data_shape := (512, 512) } }

/-- The scenario configuration of the spec: validation interval 5, twelve
epochs, two warmup epochs, target learning rate `0.1`. -/
def cfgRun : Cfg :=
  { train := { start_epoch := 0, epochs := 12, batch_size := 16, lr := 1/10,
               wd := 1/10000, lr_decay := 1/10, lr_decay_epoch := [8, 10], lr_mode := PhaseMode.step,
               warmup_epochs := 2 },
    valid := { interval := 5 },
    center_net := { data_shape := (512, 512) } }

/-- Concrete oracles over `Net := ℕ`: each epoch increments the network
state, validation mAP after epoch `e` is `e + 1`, the train-set mAP is
`1/2` and each epoch takes one second. -/
def orcNat : Oracles ℕ :=
  { step := fun _ n => n + 1
    vmap := fun e _ => (e : ℚ) + 1
    tmap := fun _ => 1/2
    dt := fun _ => 1 }

/-- A state holding progress from an earlier run. -/
def sPrev : EstState ℕ :=
  { best_map := 1/2, epoch := 9, time_elapsed := 7, net := 42,
    classes := ["cat"], last_train := some 100,
    executed := [], validated := [], saved := [] }

/-- A fresh state. -/
def sFresh : EstState ℕ :=
  { best_map := 0, epoch := 0, time_elapsed := 0, net := 0,
    classes := ["cat", "dog"], last_train := some 160,
    executed := [], validated := [], saved := [] }

/-- A state two epochs into a run. -/
def sMid : EstState ℕ :=
  { best_map := 1, epoch := 2, time_elapsed := 2, net := 2,
    classes := ["cat", "dog"], last_train := some 160,
    executed := [], validated := [], saved := [] }

/-- C1 (counterexample): calling `_fit` on an already-finished run
(`start_epoch = 5 ≥ epochs = 3`) from a state whose best score is `1/2`
returns a state whose best score has been reset to `0` — so the best-score
state *is* mutated — and the value returned is the two-element set
`{'time', 0}`, not a `{time: float}` mapping. -/
theorem fit_noop_claim_counterexample :
    (stateOf (fit cfgDone orcNat 100 sPrev) sPrev).best_map = 0 ∧
    sPrev.best_map = 1/2 ∧ ((1 : ℚ)/2 ≠ 0) ∧
    pyOf (fit cfgDone orcNat 100 sPrev) (PyObj.dict []) =
      PyObj.set [PyElem.str "time", PyElem.num 0] ∧
    isTimeDict (pyOf (fit cfgDone orcNat 100 sPrev) (PyObj.dict [])) = false := by
  refine ⟨?_, rfl, by norm_num, ?_, ?_⟩ <;>
    simp [fit, resetState, stateOf, pyOf, isTimeDict, cfgDone, sPrev]

/-- C1 (amended): the two entry points return immediately on *different*
scopes, because `_fit` zeroes the current epoch before its check.
`_resume_fit` is a true no-op exactly on an already-finished run
(`max(start_epoch, current_epoch) ≥ epochs`): it returns the set literal
`{'time', time_elapsed}` and mutates nothing, in particular neither the
network nor the best score.  `_fit` returns immediately exactly when
`start_epoch ≥ epochs`, regardless of the current epoch: it first resets
the best score, the epoch and the elapsed time to zero (leaving the
network and every other field untouched) and then returns the set
literal `{'time', 0}`; whenever `start_epoch < epochs`, `_fit` does
*not* return immediately — even from a state with
`current_epoch ≥ epochs` it starts a fresh training run. -/
theorem noop_terminal_entry_points (cfg : Cfg) (orc : Oracles Net) (ts : ℕ)
    (s : EstState Net) :
    (cfg.train.epochs ≤ max cfg.train.start_epoch s.epoch →
      resume_fit cfg orc s =
        .ok (s, PyObj.set [PyElem.str "time", PyElem.num s.time_elapsed])) ∧
    (cfg.train.epochs ≤ cfg.train.start_epoch →
      fit cfg orc ts s =
        .ok ({ s with best_map := 0, epoch := 0, time_elapsed := 0 },
          PyObj.set [PyElem.str "time", PyElem.num 0])) ∧
    (cfg.train.start_epoch < cfg.train.epochs → s.classes ≠ [] →
      fit cfg orc ts s =
        .ok (train_loop cfg orc
          { resetState s with last_train := some ts })) := by
  refine ⟨?_, ?_, ?_⟩
  · intro h
    unfold resume_fit
    rw [if_pos h]
  · intro h2
    unfold fit resetState
    dsimp only
    rw [if_pos (by simpa using h2)]
  · intro h3 hcls
    exact fit_run cfg orc ts s hcls h3

theorem noop_terminal_entry_points_witness :
    resume_fit cfgDone orcNat sPrev =
      .ok (sPrev, PyObj.set [PyElem.str "time", PyElem.num sPrev.time_elapsed]) ∧
    fit cfgDone orcNat 100 sPrev =
      .ok ({ sPrev with best_map := 0, epoch := 0, time_elapsed := 0 },
        PyObj.set [PyElem.str "time", PyElem.num 0]) ∧
    fit cfgMid orcNat 64 sPrev =
      .ok (train_loop cfgMid orcNat
        { resetState sPrev with last_train := some 64 }) :=
  ⟨(noop_terminal_entry_points cfgDone orcNat 100 sPrev).1 (by decide),
   (noop_terminal_entry_points cfgDone orcNat 100 sPrev).2.1 (by decide),
   (noop_terminal_entry_points cfgMid orcNat 64 sPrev).2.2 (by decide)
     (by decide)⟩

/-- C2: when the run is not yet finished, `_resume_fit` runs the training
loop, and the loop executes exactly the epochs
`max(start_epoch, current_epoch), ..., epochs - 1`, in order; no epoch
below the continuation point — in particular no already-completed epoch
`e < current_epoch` — is ever executed again. -/
theorem resume_executes_exactly_remaining_epochs (cfg : Cfg)
    (orc : Oracles Net) (s : EstState Net) (hx : s.executed = [])
    (hcls : s.classes ≠ [])
    (hrun : max cfg.train.start_epoch s.epoch < cfg.train.epochs) :
    resume_fit cfg orc s = .ok (train_loop cfg orc s) ∧
    (train_loop cfg orc s).1.executed =
      List.range' (max cfg.train.start_epoch s.epoch)
        (cfg.train.epochs - max cfg.train.start_epoch s.epoch) ∧
    ∀ e, e < max cfg.train.start_epoch s.epoch →
      e ∉ (train_loop cfg orc s).1.executed := by
  have hex : (train_loop cfg orc s).1.executed =
      List.range' (max cfg.train.start_epoch s.epoch)
        (cfg.train.epochs - max cfg.train.start_epoch s.epoch) := by
    rw [train_loop_fst, loopFold_executed, hx]
    simp
  refine ⟨resume_fit_run cfg orc s hcls hrun, hex, ?_⟩
  intro e he hmem
  rw [hex] at hmem
  rw [List.mem_range'] at hmem
  omega

theorem resume_executes_exactly_remaining_epochs_witness :
    (train_loop cfgRun orcNat sMid).1.executed = List.range' 2 10 ∧
    ¬ (1 ∈ (train_loop cfgRun orcNat sMid).1.executed) := by
  have h := resume_executes_exactly_remaining_epochs cfgRun orcNat sMid rfl
    (by decide) (by decide)
  exact ⟨h.2.1, h.2.2 1 (by decide)⟩

/-- C3: a checkpoint is written by a loop iteration exactly when
validation ran and the obtained mAP strictly exceeds the running best, in
which case the running best becomes that mAP; consequently the best score
never decreases, and over a whole run the checkpointed mAP values form a
strictly increasing chain above the initial best score — every saved
checkpoint is a strict improvement. -/
theorem checkpoint_iff_strict_improvement (cfg : Cfg) (orc : Oracles Net)
    (e : ℕ) (s t : EstState Net) (ht : t.saved = []) :
    ((validCond cfg e ∧ s.best_map < orc.vmap e (orc.step e s.net)) →
      (epochStep cfg orc e s).saved =
          s.saved ++ [(e, orc.vmap e (orc.step e s.net))] ∧
        (epochStep cfg orc e s).best_map = orc.vmap e (orc.step e s.net)) ∧
    (¬ (validCond cfg e ∧ s.best_map < orc.vmap e (orc.step e s.net)) →
      (epochStep cfg orc e s).saved = s.saved ∧
        (epochStep cfg orc e s).best_map = s.best_map) ∧
    s.best_map ≤ (epochStep cfg orc e s).best_map ∧
    List.Chain (· < ·) t.best_map
      ((train_loop cfg orc t).1.saved.map Prod.snd) ∧
    t.best_map ≤ (train_loop cfg orc t).1.best_map := by
  have hstep := epochStep_saved_best cfg orc e s
  refine ⟨?_, ?_, epochStep_best_mono cfg orc e s, ?_, ?_⟩
  · intro hc
    rwa [if_pos hc] at hstep
  · intro hc
    rwa [if_neg hc] at hstep
  · rw [train_loop_fst]
    exact (loopFold_saved_chain cfg orc _ t ht).1
  · rw [train_loop_fst]
    exact loopFold_best_mono cfg orc _ t

theorem checkpoint_iff_strict_improvement_witness :
    List.Chain (· < ·) sFresh.best_map
      ((train_loop cfgRun orcNat sFresh).1.saved.map Prod.snd) ∧
    sFresh.best_map ≤ (train_loop cfgRun orcNat sFresh).1.best_map :=
  ⟨(checkpoint_iff_strict_improvement cfgRun orcNat 0 sFresh sFresh rfl).2.2.2.1,
   (checkpoint_iff_strict_improvement cfgRun orcNat 0 sFresh sFresh rfl).2.2.2.2⟩

/-- C7: over a run, validation is performed after epoch `e` exactly when
`e % valid.interval == 0` or `e == epochs - 1`: the validated epochs are
precisely the executed epochs satisfying that condition, in order. -/
theorem validation_exactly_at_interval_or_final (cfg : Cfg)
    (orc : Oracles Net) (s : EstState Net) (_hint : 0 < cfg.valid.interval)
    (hx : s.executed = []) (hv : s.validated = []) :
    (train_loop cfg orc s).1.validated =
      (List.range' (max cfg.train.start_epoch s.epoch)
          (cfg.train.epochs - max cfg.train.start_epoch s.epoch)).filter
        (fun e => decide (validCond cfg e)) ∧
    ∀ e, e ∈ (train_loop cfg orc s).1.validated ↔
      e ∈ (train_loop cfg orc s).1.executed ∧
        (e % cfg.valid.interval = 0 ∨ e = cfg.train.epochs - 1) := by
  have hval : (train_loop cfg orc s).1.validated =
      (List.range' (max cfg.train.start_epoch s.epoch)
          (cfg.train.epochs - max cfg.train.start_epoch s.epoch)).filter
        (fun e => decide (validCond cfg e)) := by
    rw [train_loop_fst, loopFold_validated, hv]
    simp
  have hex : (train_loop cfg orc s).1.executed =
      List.range' (max cfg.train.start_epoch s.epoch)
        (cfg.train.epochs - max cfg.train.start_epoch s.epoch) := by
    rw [train_loop_fst, loopFold_executed, hx]
    simp
  refine ⟨hval, fun e => ?_⟩
  rw [hval, hex, List.mem_filter]
  simp [validCond]

theorem validation_exactly_at_interval_or_final_witness :
    (train_loop cfgRun orcNat sFresh).1.validated = [0, 5, 10, 11] := by
  rw [(validation_exactly_at_interval_or_final cfgRun orcNat sFresh
    (by decide) rfl rfl).1]
  decide

/-- C10 (counterexample): with `start_epoch = 3 < epochs = 5`, a `_fit`
call from a state nine epochs in restarts at epoch `3`, not epoch `0`:
the executed epochs are `[3, 4]`. -/
theorem fit_discards_progress_counterexample :
    (stateOf (fit cfgMid orcNat 64 sPrev) sPrev).executed = [3, 4] ∧
    (stateOf (fit cfgMid orcNat 64 sPrev) sPrev).executed.head? = some 3 ∧
    (3 : ℕ) ≠ 0 := by
  rw [fit_run cfgMid orcNat 64 sPrev (by decide) (by decide), stateOf_ok]
  have hex : (train_loop cfgMid orcNat
      { resetState sPrev with last_train := some 64 }).1.executed = [3, 4] := by
    rw [train_loop_fst, loopFold_executed]
    decide
  exact ⟨hex, by rw [hex]; rfl, by decide⟩

/-- C10 (amended): `_fit` unconditionally resets the best score, the
epoch and the elapsed time to zero before checking termination — its
result is invariant under any prior values of those three fields — and a
repeated `_fit` call restarts training from
`max(start_epoch, 0) = start_epoch` (epoch 0 under a zero configured
start epoch), discarding prior progress; `_resume_fit`, by contrast,
continues from `max(start_epoch, current_epoch)`. -/
theorem fit_resets_then_restarts_from_start_epoch (cfg : Cfg)
    (orc : Oracles Net) (ts : ℕ) (s : EstState Net) (b t : ℚ) (e : ℕ)
    (hx : s.executed = []) (hcls : s.classes ≠ [])
    (hrun : cfg.train.start_epoch < cfg.train.epochs) :
    fit cfg orc ts s =
      fit cfg orc ts { s with best_map := b, epoch := e, time_elapsed := t } ∧
    fit cfg orc ts s =
      .ok (train_loop cfg orc { resetState s with last_train := some ts }) ∧
    (stateOf (fit cfg orc ts s) s).executed =
      List.range' cfg.train.start_epoch
        (cfg.train.epochs - cfg.train.start_epoch) ∧
    (max cfg.train.start_epoch s.epoch < cfg.train.epochs →
      (stateOf (resume_fit cfg orc s) s).executed =
        List.range' (max cfg.train.start_epoch s.epoch)
          (cfg.train.epochs - max cfg.train.start_epoch s.epoch)) := by
  have hreset : resetState { s with best_map := b, epoch := e, time_elapsed := t }
      = resetState s := by
    cases s
    rfl
  have hfit := fit_run cfg orc ts s hcls hrun
  refine ⟨?_, hfit, ?_, ?_⟩
  · unfold fit
    rw [hreset]
  · rw [hfit, stateOf_ok]
    rw [train_loop_fst, loopFold_executed]
    have : ({ resetState s with last_train := some ts} : EstState Net).executed
        = s.executed := by cases s; rfl
    rw [this, hx]
    have hm : max cfg.train.start_epoch
        ({ resetState s with last_train := some ts} : EstState Net).epoch =
        cfg.train.start_epoch := by
      have : ({ resetState s with last_train := some ts} : EstState Net).epoch
          = 0 := by cases s; rfl
      rw [this]
      omega
    rw [hm]
    simp
  · intro hres
    rw [resume_fit_run cfg orc s hcls hres, stateOf_ok]
    rw [train_loop_fst, loopFold_executed, hx]
    simp

theorem fit_resets_then_restarts_from_start_epoch_witness :
    fit cfgMid orcNat 64 sPrev =
      fit cfgMid orcNat 64
        { sPrev with best_map := 9, epoch := 1, time_elapsed := 3 } ∧
    (stateOf (fit cfgMid orcNat 64 sPrev) sPrev).executed =
      List.range' 3 2 := by
  have h := fit_resets_then_restarts_from_start_epoch cfgMid orcNat 64 sPrev
    9 3 1 rfl (by decide) (by decide)
  exact ⟨h.1, h.2.2.1⟩

/-- One detection slot emitted by the network in inference mode
(`ids, scores, bboxes = [xx[0].asnumpy() for xx in self.net(x)]`): a
class id, a confidence score and a raw box in pixel coordinates of the
resized image.  The network pads to a fixed top-k count with
negative-score sentinel slots. -/
structure DetOut where
  id : ℕ
  score : ℚ
  xmin : ℚ
  ymin : ℚ
  xmax : ℚ
  ymax : ℚ
  deriving DecidableEq, Repr

/-- An image reference held in the `image` column of a tabular input:
a path string or a decoded tensor (kept abstract). -/
inductive PredCell where
  | path (s : String) : PredCell
  | tensor (t : ℕ) : PredCell
  deriving DecidableEq, Repr

/-- The input accepted by `_predict`, dispatched on its Python type: a
`str` path, an `mx.nd.NDArray`, a `pd.DataFrame` (represented by its
column names and the cells of its `image` column when that column
exists), or a value of any other type. -/
inductive PredInput where
  | path (s : String) : PredInput
  | tensor (t : ℕ) : PredInput
  | frame (cols : List String) (images : List PredCell) : PredInput
  | other (ty : String) : PredInput
  deriving DecidableEq, Repr

/-- A row of the DataFrame returned by `_predict`: `predict_class`,
`predict_score`, the four named fields of `predict_rois`, and — attached
only on the tabular path by `_predict_merge` — the source `image`. -/
structure PredRow where
  predict_class : String
  predict_score : ℚ
  xmin : ℚ
  ymin : ℚ
  xmax : ℚ
  ymax : ℚ
  image : Option PredCell
  deriving DecidableEq, Repr

/-- `np.clip(_, 0.0, 1.0)` on one coordinate. -/
def clip01 (q : ℚ) : ℚ := max 0 (min q 1)

/-- One row of the DataFrame built by `_predict` for a single image whose
resized tensor is `width × height`: x coordinates are divided by the
width and y coordinates by the height, the box is clipped to `[0, 1]`,
and the class name is looked up as `self.classes[int(id)]`. -/
def mkRow (classes : List String) (width height : ℚ) (d : DetOut) : PredRow :=
  { predict_class := classes.getD d.id ""
    predict_score := d.score
    xmin := clip01 (d.xmin / width)
    ymin := clip01 (d.ymin / height)
    xmax := clip01 (d.xmax / width)
    ymax := clip01 (d.ymax / height)
    image := none }

/-- The single-image tail of `_predict`: build one row per detection,
then `valid_df = df[df['predict_score'] > 0]` keeps exactly the rows
with a strictly positive score. -/
def predictImage (classes : List String) (width height : ℚ)
    (dets : List DetOut) : List PredRow :=
  (dets.map (mkRow classes width height)).filter
    (fun r => 0 < r.predict_score)

/-- The inference-time collaborators of `_predict`: the class list, the
network's top-k output for an image, and the spatial size
`(width, height)` of the image after `load_test`/`transform_test`
(`height, width = x.shape[2:4]`). -/
structure PredEnv where
  classes : List String
  netOut : PredCell → List DetOut
  dims : PredCell → ℚ × ℚ

/-- `_predict` on a single image reference. -/
def predictCellRows (env : PredEnv) (c : PredCell) : List PredRow :=
  predictImage env.classes (env.dims c).1 (env.dims c).2 (env.netOut c)

/-- `pd.concat`: concatenates a list of DataFrames; called on an empty
list (a zero-row `image` column) pandas raises
`ValueError: No objects to concatenate`. -/
def pd_concat (ls : List (List PredRow)) : Except String (List PredRow) :=
  if ls.isEmpty then .error "No objects to concatenate" else .ok ls.flatten

/-- `_predict`, dispatching on the input type: a path or tensor is
normalized and run through the single-image tail; a DataFrame must have
an `image` column (`assert 'image' in x.columns`), and is handled by
`pd.concat([_predict_merge(xx) for xx in x['image']])` where
`_predict_merge` recursively predicts one cell and attaches the source
image reference to each row; any other type raises `ValueError`. -/
def predict (env : PredEnv) : PredInput → Except String (List PredRow)
  | .path s => .ok (predictCellRows env (.path s))
  | .tensor t => .ok (predictCellRows env (.tensor t))
  | .frame cols images =>
      if "image" ∈ cols then
        pd_concat (images.map fun c =>
          (predictCellRows env c).map fun r => { r with image := some c })
      else .error "Expect column `image` for input images"
  | .other ty => .error ("Input is not supported: " ++ ty)

/-- Is a predict result an exception? -/
def predIsError : Except String (List PredRow) → Bool
  | .error _ => true
  | .ok _ => false

/-- C4: every row of the filtered predict output has a strictly positive
confidence score; every detection with score `> 0` — however small —
contributes its row, and a detection with score `≤ 0` never appears: the
output is exactly the positive-score detections mapped to rows, in
order. -/
theorem predict_filters_exactly_positive_scores (classes : List String)
    (width height : ℚ) (dets : List DetOut) :
    (∀ r ∈ predictImage classes width height dets, 0 < r.predict_score) ∧
    (∀ d ∈ dets, 0 < d.score →
      mkRow classes width height d ∈ predictImage classes width height dets) ∧
    (∀ d ∈ dets, d.score ≤ 0 →
      mkRow classes width height d ∉ predictImage classes width height dets) ∧
    predictImage classes width height dets =
      (dets.filter (fun d => 0 < d.score)).map (mkRow classes width height) := by
  have hscore : ∀ d, (mkRow classes width height d).predict_score = d.score :=
    fun d => rfl
  have key : predictImage classes width height dets =
      (dets.filter (fun d => 0 < d.score)).map (mkRow classes width height) := by
    unfold predictImage
    induction dets with
    | nil => rfl
    | cons d t ih =>
      by_cases h : 0 < d.score
      · simpa [List.filter_cons, hscore, h] using ih
      · simpa [List.filter_cons, hscore, h] using ih
  refine ⟨?_, ?_, ?_, key⟩
  · intro r hr
    rw [key] at hr
    rcases List.mem_map.mp hr with ⟨d, hd, rfl⟩
    rw [hscore]
    exact of_decide_eq_true (List.mem_filter.mp hd).2
  · intro d hd hpos
    rw [key]
    exact List.mem_map_of_mem _ (List.mem_filter.mpr ⟨hd, by simpa using hpos⟩)
  · intro d hd hneg hmem
    rw [key] at hmem
    rcases List.mem_map.mp hmem with ⟨d', hd', heq⟩
    have hlt : 0 < d.score := by
      have h1 := congrArg PredRow.predict_score heq
      rw [hscore, hscore] at h1
      rw [← h1]
      exact of_decide_eq_true (List.mem_filter.mp hd').2
    exact absurd hlt (not_lt.mpr hneg)

/-- A detection just above the score boundary (`1e-6`). -/
def detTiny : DetOut :=
  { id := 0, score := 1/1000000, xmin := 5, ymin := 5, xmax := 10, ymax := 10 }

/-- A detection exactly at the boundary (score `0`). -/
def detZero : DetOut :=
  { id := 0, score := 0, xmin := 1, ymin := 1, xmax := 2, ymax := 2 }

/-- A sentinel slot with a negative score. -/
def detNeg : DetOut :=
  { id := 0, score := -1, xmin := 0, ymin := 0, xmax := 0, ymax := 0 }

/-- A network output list exercising the score boundary. -/
def detsBoundary : List DetOut := [detTiny, detZero, detNeg]

theorem predict_filters_exactly_positive_scores_witness :
    ((0 : ℚ) < 1/1000000) ∧
    mkRow ["person"] 100 100 detTiny ∈
      predictImage ["person"] 100 100 detsBoundary ∧
    mkRow ["person"] 100 100 detZero ∉
      predictImage ["person"] 100 100 detsBoundary := by
  refine ⟨by norm_num, ?_, ?_⟩
  · exact (predict_filters_exactly_positive_scores ["person"] 100 100
      detsBoundary).2.1 _ (by simp [detsBoundary])
      (by norm_num [detTiny])
  · exact (predict_filters_exactly_positive_scores ["person"] 100 100
      detsBoundary).2.2.1 _ (by simp [detsBoundary]) (by norm_num [detZero])

lemma predictCellRows_image_none (env : PredEnv) (c : PredCell) :
    ∀ r ∈ predictCellRows env c, r.image = none := by
  intro r hr
  rcases List.mem_filter.mp hr with ⟨hmem, -⟩
  rcases List.mem_map.mp hmem with ⟨d, -, rfl⟩
  rfl

/-- The environment used by the concrete predict scenarios. -/
def envW : PredEnv :=
  { classes := ["person"]
    netOut := fun _ => detsBoundary
    dims := fun _ => (100, 100) }

/-- C9 (counterexample): a DataFrame that *does* have an `image` column
but holds zero rows is a supported input, yet `_predict` still raises:
`pd.concat` on the empty list of per-row results fails.  So "raises if
and only if unsupported type or missing `image` column" is false. -/
theorem predict_error_iff_counterexample :
    predict envW (PredInput.frame ["image"] []) =
      .error "No objects to concatenate" ∧
    ("image" ∈ ["image"]) ∧
    (∀ ty, PredInput.frame ["image"] ([] : List PredCell) ≠
      PredInput.other ty) := by
  refine ⟨rfl, by simp, by intro ty h; cases h⟩

/-- C9 (amended): `_predict` raises exactly when the input is of an
unsupported type, is a table lacking an `image` column, or is a table
with an `image` column but zero rows (`pd.concat` of an empty collection
raises); on a nonempty table with an `image` column it returns the
concatenation of the recursive per-row predictions, and every output row
carries `image := c` for some source cell `c` whose own prediction
contains that row (minus the attached image). -/
theorem predict_error_iff_and_table_concat (env : PredEnv) (x : PredInput) :
    (predIsError (predict env x) = true ↔
      (∃ ty, x = PredInput.other ty) ∨
      (∃ cols images, x = PredInput.frame cols images ∧ "image" ∉ cols) ∨
      (∃ cols, x = PredInput.frame cols [] ∧ "image" ∈ cols)) ∧
    (∀ cols images, x = PredInput.frame cols images → "image" ∈ cols →
      images ≠ [] →
      predict env x = .ok ((images.map fun c =>
        (predictCellRows env c).map fun r => { r with image := some c }).flatten)) ∧
    (∀ cols images rows r, x = PredInput.frame cols images → "image" ∈ cols →
      predict env x = .ok rows → r ∈ rows →
      ∃ c ∈ images, r.image = some c ∧
        { r with image := none } ∈ predictCellRows env c) := by
  refine ⟨?_, ?_, ?_⟩
  · cases x with
    | path s => simp [predict, predIsError]
    | tensor t => simp [predict, predIsError]
    | other ty => simp [predict, predIsError]
    | frame cols images =>
      by_cases hcol : "image" ∈ cols
      · rcases images with _ | ⟨c, cs⟩
        · simp [predict, pd_concat, predIsError, hcol]
        · simp [predict, pd_concat, predIsError, hcol]
      · simp [predict, predIsError, hcol]
  · intro cols images hx hcol hne
    subst hx
    simp only [predict, if_pos hcol, pd_concat]
    rw [if_neg (by simpa using hne)]
  · intro cols images rows r hx hcol hpred hr
    subst hx
    simp only [predict, if_pos hcol, pd_concat] at hpred
    split at hpred
    · cases hpred
    · rcases hpred with ⟨rfl⟩
      rcases List.mem_flatten.mp hr with ⟨l, hl, hrl⟩
      rcases List.mem_map.mp hl with ⟨c, hc, rfl⟩
      rcases List.mem_map.mp hrl with ⟨r0, hr0, rfl⟩
      refine ⟨c, hc, rfl, ?_⟩
      have h0 : r0.image = none := predictCellRows_image_none env c r0 hr0
      have : ({ { r0 with image := some c } with image := none } : PredRow)
          = r0 := by
        cases r0
        simp_all
      rw [this]
      exact hr0

theorem predict_error_iff_and_table_concat_witness :
    predIsError (predict envW (PredInput.other "int")) = true ∧
    predict envW (PredInput.frame ["image"] [PredCell.path "a.jpg"]) =
      .ok (([PredCell.path "a.jpg"].map fun c =>
        (predictCellRows envW c).map fun r => { r with image := some c }).flatten) := by
  constructor
  · exact (predict_error_iff_and_table_concat envW
      (PredInput.other "int")).1.mpr (Or.inl ⟨"int", rfl⟩)
  · exact (predict_error_iff_and_table_concat envW
      (PredInput.frame ["image"] [PredCell.path "a.jpg"])).2.1 _ _ rfl
      (by simp) (by simp)

/-- The six aligned tensors of one training batch, each a list along the
batch axis (`batch[0] .. batch[5]`: image, heatmap target, wh target,
wh mask, center-reg target, center-reg mask). -/
structure TrainBatch (α : Type) where
  data : List α
  heatmap_targets : List α
  wh_targets : List α
  wh_masks : List α
  center_reg_targets : List α
  center_reg_masks : List α

/-- `gluon.utils.split_and_load(tensor, ctx_list=self.ctx, batch_axis=0)`:
an even split of a tensor along its leading dimension into one slice per
device of `ctx_list`. -/
def split_and_load (ctx : List γ) (xs : List α) : List (List α) :=
  let k := ctx.length
  let m := xs.length / k
  (List.range k).map (fun i => (xs.drop (i * m)).take m)

/-- Python's six-ary `zip`: truncates at the shortest argument. -/
def zip6 {β : Type} (l1 l2 l3 l4 l5 l6 : List β) :
    List (β × β × β × β × β × β) :=
  l1.zip (l2.zip (l3.zip (l4.zip (l5.zip l6))))

/-- The `sum_losses` list built by the per-shard loop of `_train_loop`:
one entry per aligned six-tuple of per-device shards
(`for x, ... in zip(*split_data)`), each the sum
`heatmap_losses[-1] + wh_losses[-1] + center_reg_losses[-1]` of the three
loss scalars the network and loss collaborators produce for that
shard. -/
def sum_losses (net : List α → β × β × β)
    (heatmap_loss : β → List α → ℚ)
    (wh_loss : β → List α → List α → ℚ)
    (center_reg_loss : β → List α → List α → ℚ)
    (ctx : List γ) (b : TrainBatch α) : List ℚ :=
  (zip6 (split_and_load ctx b.data)
        (split_and_load ctx b.heatmap_targets)
        (split_and_load ctx b.wh_targets)
        (split_and_load ctx b.wh_masks)
        (split_and_load ctx b.center_reg_targets)
        (split_and_load ctx b.center_reg_masks)).map
    (fun t =>
      let x := t.1
      let heatmap_target := t.2.1
      let wh_target := t.2.2.1
      let wh_mask := t.2.2.2.1
      let center_reg_target := t.2.2.2.2.1
      let center_reg_mask := t.2.2.2.2.2
      let p := net x
      heatmap_loss p.1 heatmap_target + wh_loss p.2.1 wh_target wh_mask +
        center_reg_loss p.2.2 center_reg_target center_reg_mask)

/-- `self.trainer.step(len(sum_losses))`: the multiplier passed to the
optimizer step. -/
def trainer_step_multiplier (net : List α → β × β × β)
    (heatmap_loss : β → List α → ℚ)
    (wh_loss : β → List α → List α → ℚ)
    (center_reg_loss : β → List α → List α → ℚ)
    (ctx : List γ) (b : TrainBatch α) : ℕ :=
  (sum_losses net heatmap_loss wh_loss center_reg_loss ctx b).length

lemma split_and_load_length (ctx : List γ) (xs : List α) :
    (split_and_load ctx xs).length = ctx.length := by
  simp [split_and_load]

/-- C5: the multiplier passed to `trainer.step` equals the number of
per-device shards produced by splitting the batch across the resolved
device list — which is the device count itself, so the effective step
size does not depend on how many devices the batch was split over. -/
theorem step_multiplier_eq_shard_count (net : List α → β × β × β)
    (heatmap_loss : β → List α → ℚ)
    (wh_loss : β → List α → List α → ℚ)
    (center_reg_loss : β → List α → List α → ℚ)
    (ctx : List γ) (b : TrainBatch α) :
    trainer_step_multiplier net heatmap_loss wh_loss center_reg_loss ctx b =
      (split_and_load ctx b.data).length ∧
    (split_and_load ctx b.data).length = ctx.length := by
  constructor
  · simp [trainer_step_multiplier, sum_losses, zip6, split_and_load]
  · exact split_and_load_length ctx b.data

/-- A bounding box handled by `_evaluate`. -/
structure EBox where
  xmin : ℚ
  ymin : ℚ
  xmax : ℚ
  ymax : ℚ
  deriving DecidableEq, Repr

/-- The clipping step of `_evaluate`:
`det_bboxes.append(bboxes.clip(0, batch[0].shape[2]))`.  The batched
image tensor is NCHW and `CenterNetDefaultValTransform(width, height)`
resizes every image to `height × width`, so `shape[2]` is the *height*:
every one of the four coordinates — x as well as y — is clipped into
`[0, height]`. -/
def evaluate_clip_boxes (cfg : Cfg) (boxes : List EBox) : List EBox :=
  let bound : ℚ := (cfg.center_net.data_shape.2 : ℚ)
  boxes.map fun b =>
    { xmin := max 0 (min b.xmin bound)
      ymin := max 0 (min b.ymin bound)
      xmax := max 0 (min b.xmax bound)
      ymax := max 0 (min b.ymax bound) }

/-- A portrait data shape: width 100, height 200. -/
def cfgPortrait : Cfg :=
  { train := { start_epoch := 0, epochs := 1, batch_size := 16, lr := 1/10,
               wd := 1/10000, lr_decay := 1/10, lr_decay_epoch := [1], lr_mode := PhaseMode.step,
               warmup_epochs := 0 },
    valid := { interval := 1 },
    center_net := { data_shape := (100, 200) } }

/-- C8 (counterexample): with data shape width 100 × height 200, a
predicted box with `xmin = 150` passes through `_evaluate`'s clip
unchanged (150 ≤ 200 = `shape[2]`), so its x coordinate exceeds the
image's width bound of 100. -/
theorem evaluate_clip_width_counterexample :
    ((evaluate_clip_boxes cfgPortrait
        [{ xmin := 150, ymin := 10, xmax := 180, ymax := 20 }]).getD 0
      { xmin := 0, ymin := 0, xmax := 0, ymax := 0 }).xmin = 150 ∧
    ¬ (((evaluate_clip_boxes cfgPortrait
        [{ xmin := 150, ymin := 10, xmax := 180, ymax := 20 }]).getD 0
      { xmin := 0, ymin := 0, xmax := 0, ymax := 0 }).xmin ≤
        ((cfgPortrait.center_net.data_shape.1 : ℚ))) := by
  have h : (evaluate_clip_boxes cfgPortrait
      [{ xmin := 150, ymin := 10, xmax := 180, ymax := 20 }]).getD 0
      { xmin := 0, ymin := 0, xmax := 0, ymax := 0 } =
      { xmin := 150, ymin := 10, xmax := 180, ymax := 20 } := by
    simp only [evaluate_clip_boxes, cfgPortrait, List.map_cons, List.map_nil,
      List.getD_cons_zero]
    norm_num
  rw [h]
  constructor
  · rfl
  · norm_num [cfgPortrait]

/-- C8 (amended): `_evaluate` clips every coordinate of every predicted
box — the x coordinates as well as the y coordinates — into
`[0, height]` where height is `batch[0].shape[2]`; hence the y
coordinates always lie within the image's height bounds, and the x
coordinates lie within the width bounds whenever `height ≤ width` (in
particular for square data shapes), but not in general. -/
theorem evaluate_clips_boxes_to_height (cfg : Cfg) (boxes : List EBox)
    (b : EBox) (hb : b ∈ evaluate_clip_boxes cfg boxes) :
    (0 ≤ b.xmin ∧ b.xmin ≤ (cfg.center_net.data_shape.2 : ℚ)) ∧
    (0 ≤ b.ymin ∧ b.ymin ≤ (cfg.center_net.data_shape.2 : ℚ)) ∧
    (0 ≤ b.xmax ∧ b.xmax ≤ (cfg.center_net.data_shape.2 : ℚ)) ∧
    (0 ≤ b.ymax ∧ b.ymax ≤ (cfg.center_net.data_shape.2 : ℚ)) ∧
    (cfg.center_net.data_shape.2 ≤ cfg.center_net.data_shape.1 →
      b.xmin ≤ (cfg.center_net.data_shape.1 : ℚ) ∧
      b.xmax ≤ (cfg.center_net.data_shape.1 : ℚ)) := by
  rcases List.mem_map.mp hb with ⟨a, -, rfl⟩
  have hge : (0 : ℚ) ≤ (cfg.center_net.data_shape.2 : ℚ) := by positivity
  have hcl : ∀ q : ℚ, 0 ≤ max 0 (min q (cfg.center_net.data_shape.2 : ℚ)) ∧
      max 0 (min q (cfg.center_net.data_shape.2 : ℚ)) ≤
        (cfg.center_net.data_shape.2 : ℚ) := by
    intro q
    exact ⟨le_max_left 0 _, max_le hge (min_le_right _ _)⟩
  refine ⟨hcl a.xmin, hcl a.ymin, hcl a.xmax, hcl a.ymax, ?_⟩
  intro hwh
  have hwh' : ((cfg.center_net.data_shape.2 : ℚ)) ≤
      ((cfg.center_net.data_shape.1 : ℚ)) := by exact_mod_cast hwh
  exact ⟨le_trans (hcl a.xmin).2 hwh', le_trans (hcl a.xmax).2 hwh'⟩

/-- A raw predicted box with coordinates outside the portrait image. -/
def boxRaw : EBox := { xmin := 150, ymin := -3, xmax := 250, ymax := 20 }

/-- `boxRaw` after `_evaluate`'s clip with height 200. -/
def boxClipped : EBox := { xmin := 150, ymin := 0, xmax := 200, ymax := 20 }

theorem evaluate_clips_boxes_to_height_witness :
    0 ≤ boxClipped.ymin ∧
    boxClipped.ymin ≤ (cfgPortrait.center_net.data_shape.2 : ℚ) := by
  have hmem : boxClipped ∈ evaluate_clip_boxes cfgPortrait [boxRaw] := by
    simp only [evaluate_clip_boxes, cfgPortrait, List.map_cons, List.map_nil,
      List.mem_singleton, boxClipped, boxRaw, EBox.mk.injEq]
    norm_num [min_def, max_def]
  exact (evaluate_clips_boxes_to_height cfgPortrait [boxRaw] boxClipped
    hmem).2.1

/-- Modelled from the spec: one schedule phase of the `LRScheduler`
utility (`gluoncv.utils.LRScheduler` is not under `src/`; only its call
site in `_init_trainer` is).  A phase spans
`nepochs * iters_per_epoch` iterations and carries a mode, a base and
target learning rate, step milestones (in epochs, possibly negative
after shifting), a step factor and a polynomial power. -/
structure PhaseSpec where
  mode : PhaseMode
  base_lr : ℚ
  target_lr : ℚ
  nepochs : ℕ
  iters_per_epoch : ℕ
  step_epoch : List ℤ
  step_factor : ℚ
  power : ℕ
  deriving DecidableEq, Repr

/-- The number of iterations a phase spans. -/
def phaseIters (p : PhaseSpec) : ℕ := p.nepochs * p.iters_per_epoch

/-- Modelled from the spec: the per-iteration learning rate of one phase
at local iteration `t`.  `linear` ramps linearly from `base_lr` to
`target_lr` over the phase; `step` multiplies `base_lr` by `step_factor`
once for every milestone epoch already reached (milestone epoch `e` is
reached at local iteration `t` when `e * iters_per_epoch ≤ t`); `poly`
decays polynomially from `base_lr` with the given exponent. -/
def phaseLR (p : PhaseSpec) (t : ℕ) : ℚ :=
  match p.mode with
  | PhaseMode.linear =>
      p.base_lr + (p.target_lr - p.base_lr) * t / (phaseIters p : ℚ)
  | PhaseMode.step =>
      p.base_lr * p.step_factor ^
        (p.step_epoch.filter
          (fun e => e * (p.iters_per_epoch : ℤ) ≤ (t : ℤ))).length
  | PhaseMode.poly =>
      p.base_lr * (1 - (t : ℚ) / (phaseIters p : ℚ)) ^ p.power

/-- Modelled from the spec: `LRSequential` concatenates phases, each
phase consuming its span of iterations; the final phase also covers any
iterations beyond the composed length. -/
def lrSequential (ps : List PhaseSpec) (i : ℕ) : ℚ :=
  match ps with
  | [] => 0
  | [p] => phaseLR p i
  | p :: rest =>
      if i < phaseIters p then phaseLR p i else lrSequential rest (i - phaseIters p)

/-- `_init_trainer` (lines 300-312): sort the configured decay epochs,
shift every milestone earlier by the warmup length, set
iterations-per-epoch to `train_size // batch_size`, and compose a linear
warmup phase from 0 to the target learning rate over the warmup epochs
with a decay phase in the configured mode over the remaining epochs
(`power=2` is passed for the polynomial mode). -/
def init_trainer_schedule (cfg : Cfg) (train_size : ℕ) : List PhaseSpec :=
  let lr_steps := cfg.train.lr_decay_epoch.mergeSort (fun a b => decide (a ≤ b))
  let lr_decay_epoch : List ℤ :=
    lr_steps.map (fun (e : ℕ) => (e : ℤ) - (cfg.train.warmup_epochs : ℤ))
  let num_batches := train_size / cfg.train.batch_size
  [{ mode := PhaseMode.linear, base_lr := 0, target_lr := cfg.train.lr,
     nepochs := cfg.train.warmup_epochs, iters_per_epoch := num_batches,
     step_epoch := [], step_factor := cfg.train.lr_decay, power := 2 },
   { mode := cfg.train.lr_mode, base_lr := cfg.train.lr, target_lr := 0,
     nepochs := cfg.train.epochs - cfg.train.warmup_epochs,
     iters_per_epoch := num_batches, step_epoch := lr_decay_epoch,
     step_factor := cfg.train.lr_decay, power := 2 }]

lemma lrSequential_two (p q : PhaseSpec) (i : ℕ) :
    lrSequential [p, q] i =
      if i < phaseIters p then phaseLR p i else phaseLR q (i - phaseIters p) :=
  rfl

/-- C6: the schedule built by `_init_trainer` is two-phase with
per-iteration granularity, where iterations-per-epoch is
`train_size // batch_size`: during the warmup iterations the rate ramps
linearly from 0 (iteration 0 of epoch 0 gives exactly 0) to the
configured target; from the end of warmup onward it is the configured
decay mode evaluated with every milestone epoch shifted earlier by the
warmup length; and at the first iteration after warmup a step-mode
schedule whose milestones all lie beyond the warmup yields exactly the
target learning rate. -/
theorem lr_schedule_two_phase (cfg : Cfg) (ts : ℕ)
    (hipe : 0 < ts / cfg.train.batch_size)
    (hw : 0 < cfg.train.warmup_epochs)
    (_hwe : cfg.train.warmup_epochs < cfg.train.epochs) :
    lrSequential (init_trainer_schedule cfg ts) 0 = 0 ∧
    (∀ i, i < cfg.train.warmup_epochs * (ts / cfg.train.batch_size) →
      lrSequential (init_trainer_schedule cfg ts) i =
        cfg.train.lr * (i : ℚ) /
          ((cfg.train.warmup_epochs * (ts / cfg.train.batch_size) : ℕ) : ℚ)) ∧
    (∀ i, cfg.train.warmup_epochs * (ts / cfg.train.batch_size) ≤ i →
      lrSequential (init_trainer_schedule cfg ts) i =
        phaseLR
          { mode := cfg.train.lr_mode, base_lr := cfg.train.lr, target_lr := 0,
            nepochs := cfg.train.epochs - cfg.train.warmup_epochs,
            iters_per_epoch := ts / cfg.train.batch_size,
            step_epoch :=
              (cfg.train.lr_decay_epoch.mergeSort (fun a b => decide (a ≤ b))).map
                (fun (e : ℕ) => (e : ℤ) - (cfg.train.warmup_epochs : ℤ)),
            step_factor := cfg.train.lr_decay, power := 2 }
          (i - cfg.train.warmup_epochs * (ts / cfg.train.batch_size))) ∧
    ((∀ e ∈ cfg.train.lr_decay_epoch, cfg.train.warmup_epochs < e) →
      cfg.train.lr_mode = PhaseMode.step →
      lrSequential (init_trainer_schedule cfg ts)
        (cfg.train.warmup_epochs * (ts / cfg.train.batch_size)) =
          cfg.train.lr) := by
  have hW : 0 < cfg.train.warmup_epochs * (ts / cfg.train.batch_size) :=
    Nat.mul_pos hw hipe
  have hlin : ∀ i, i < cfg.train.warmup_epochs * (ts / cfg.train.batch_size) →
      lrSequential (init_trainer_schedule cfg ts) i =
        cfg.train.lr * (i : ℚ) /
          ((cfg.train.warmup_epochs * (ts / cfg.train.batch_size) : ℕ) : ℚ) := by
    intro i hi
    rw [init_trainer_schedule, lrSequential_two,
      if_pos (by simpa [phaseIters] using hi)]
    simp only [phaseLR, phaseIters]
    ring
  have htail : ∀ i, cfg.train.warmup_epochs * (ts / cfg.train.batch_size) ≤ i →
      lrSequential (init_trainer_schedule cfg ts) i =
        phaseLR
          { mode := cfg.train.lr_mode, base_lr := cfg.train.lr, target_lr := 0,
            nepochs := cfg.train.epochs - cfg.train.warmup_epochs,
            iters_per_epoch := ts / cfg.train.batch_size,
            step_epoch :=
              (cfg.train.lr_decay_epoch.mergeSort (fun a b => decide (a ≤ b))).map
                (fun (e : ℕ) => (e : ℤ) - (cfg.train.warmup_epochs : ℤ)),
            step_factor := cfg.train.lr_decay, power := 2 }
          (i - cfg.train.warmup_epochs * (ts / cfg.train.batch_size)) := by
    intro i hi
    rw [init_trainer_schedule, lrSequential_two,
      if_neg (by simpa [phaseIters] using not_lt.mpr hi)]
    rfl
  refine ⟨?_, hlin, htail, ?_⟩
  · rw [hlin 0 hW]
    simp
  · intro hmil hmode
    rw [htail _ (le_refl _), Nat.sub_self, hmode]
    simp only [phaseLR]
    have hfil : (((cfg.train.lr_decay_epoch.mergeSort
        (fun a b => decide (a ≤ b))).map
          (fun (e : ℕ) => (e : ℤ) - (cfg.train.warmup_epochs : ℤ))).filter
        (fun e => decide (e * ((ts / cfg.train.batch_size : ℕ) : ℤ) ≤
          ((0 : ℕ) : ℤ)))) = [] := by
      rw [List.filter_eq_nil_iff]
      intro x hx
      rcases List.mem_map.mp hx with ⟨e, he, rfl⟩
      have he' : e ∈ cfg.train.lr_decay_epoch := by
        rw [List.mem_mergeSort] at he
        exact he
      have h1 : (1 : ℤ) ≤ (e : ℤ) - (cfg.train.warmup_epochs : ℤ) := by
        have := hmil e he'
        omega
      have h2 : (1 : ℤ) ≤ ((ts / cfg.train.batch_size : ℕ) : ℤ) := by
        exact_mod_cast hipe
      simp only [decide_eq_true_eq, not_le, Nat.cast_zero]
      nlinarith
    rw [hfil]
    simp

theorem lr_schedule_two_phase_witness :
    lrSequential (init_trainer_schedule cfgRun 160) 0 = 0 ∧
    lrSequential (init_trainer_schedule cfgRun 160) 10 = 1/20 ∧
    lrSequential (init_trainer_schedule cfgRun 160) 20 = 1/10 := by
  have h := lr_schedule_two_phase cfgRun 160 (by decide) (by decide) (by decide)
  refine ⟨h.1, ?_, ?_⟩
  · have h2 := h.2.1 10 (by decide)
    rw [h2]
    norm_num [cfgRun]
  · have h4 := h.2.2.2 (by decide) rfl
    exact h4
